import Mathlib

/-!
Verification of PixelPilot's core specification.

The repository ships the C++/QML frontend (main.cpp, WaylandScreenGrabber)
directly; the graph-execution core (engine, graph, state store) described by
the specification is modelled here from the specification's own words, as
noted on each definition.
-/

namespace PixelPilot

/-- Modelled from the spec: node kinds Input/Process/Output (the graph core
source, graph.py, is not among the repository sources). -/
inductive NodeKind
  | input
  | process
  | output
deriving DecidableEq, Repr

/-- Modelled from the spec: gate types for Process nodes (AND, OR, NOT, NAND, XOR). -/
inductive GateType
  | gAnd
  | gOr
  | gNot
  | gNand
  | gXor
deriving DecidableEq, Repr

/-- Modelled from the spec: a node has a stable id, a kind, kind-specific
configuration (the gate for Process nodes, the tick's Condition result for
Input nodes), and named input/output ports. -/
structure Node where
  id : Nat
  kind : NodeKind
  gate : GateType
  sense : Bool
  inPorts : List String
  outPorts : List String
deriving DecidableEq, Repr

/-- Modelled from the spec: a directed edge from one node's output port to
another node's input port. -/
structure Link where
  fromNode : Nat
  fromPort : String
  toNode : Nat
  toPort : String
deriving DecidableEq, Repr

/-- Modelled from the spec: the mutable collection of nodes and links. -/
structure Graph where
  nodes : List Node
  links : List Link
deriving DecidableEq, Repr

def Graph.findNode (g : Graph) (nid : Nat) : Option Node :=
  g.nodes.find? (fun n => n.id == nid)

/-- Gate evaluation over the list of input-port values. -/
def evalGate : GateType → List Bool → Bool
  | .gAnd, vs => vs.all (fun b => b)
  | .gOr, vs => vs.any (fun b => b)
  | .gNot, vs => !(vs.any (fun b => b))
  | .gNand, vs => !(vs.all (fun b => b))
  | .gXor, vs => vs.foldl (fun acc b => Bool.xor acc b) false

/-- Modelled from the spec: the current value on an input port is the output
of the node at the other end of its (unique) incoming link; unconnected input
ports read as false. -/
def portVal (g : Graph) (sig : Nat → Bool) (nid : Nat) (p : String) : Bool :=
  match g.links.find? (fun l => l.toNode == nid && l.toPort == p) with
  | some l => sig l.fromNode
  | none => false

def hasIncoming (g : Graph) (nid : Nat) : Bool :=
  g.links.any (fun l => l.toNode == nid)

/-- Modelled from the spec: a Process node reads the current values on its
connected input ports and computes its gate; a Process node with no connected
inputs outputs false. -/
def evalProcess (g : Graph) (sig : Nat → Bool) (n : Node) : Bool :=
  if hasIncoming g n.id then
    evalGate n.gate (n.inPorts.map (portVal g sig n.id))
  else
    false

/-- One relaxation pass: every Process node's output is recomputed from the
current port values; Input and Output nodes keep their values (Input nodes are
evaluated only in pass 0, Output nodes have no output ports). -/
def step (g : Graph) (sig : Nat → Bool) : Nat → Bool :=
  fun nid =>
    match g.findNode nid with
    | some n =>
      match n.kind with
      | .process => evalProcess g sig n
      | _ => sig nid
    | none => sig nid

/-- Modelled from the spec: pass 0 evaluates every Input node by invoking its
Condition and stores its boolean output; other nodes keep their values. -/
def inputPass (g : Graph) (sig : Nat → Bool) : Nat → Bool :=
  fun nid =>
    match g.findNode nid with
    | some n => if n.kind = NodeKind.input then n.sense else sig nid
    | none => sig nid

/-- No node's output differs between the two assignments. -/
def outputsEq (g : Graph) (sig sig' : Nat → Bool) : Bool :=
  g.nodes.all (fun n => sig n.id == sig' n.id)

/-- Iterated relaxation passes (no early stop). -/
def stepIter (g : Graph) : Nat → (Nat → Bool) → (Nat → Bool)
  | 0, sig => sig
  | k+1, sig => stepIter g k (step g sig)

/-- Modelled from the spec: up to N relaxation passes, stopping early when no
node's output changed relative to the previous pass (fixed point reached). -/
def relax (g : Graph) : Nat → (Nat → Bool) → (Nat → Bool)
  | 0, sig => sig
  | k+1, sig =>
    if outputsEq g sig (step g sig) then sig else relax g k (step g sig)

/-- All outputs start false before the first tick. -/
def initState : Nat → Bool := fun _ => false

/-- Modelled from the spec: one tick evaluates pass 0 over Input nodes and
then up to N relaxation passes over Process nodes. -/
def tick (g : Graph) (numPasses : Nat) (sig : Nat → Bool) : Nat → Bool :=
  relax g numPasses (inputPass g sig)

/-- Evaluation of the first tick from the initial (all-false) outputs. -/
def evaluate (g : Graph) (numPasses : Nat) : Nat → Bool :=
  tick g numPasses initState

/-- The canonical pass sequence of the first tick: pass 0 followed by k
relaxation passes, without early stopping. -/
def tickIter (g : Graph) (k : Nat) : Nat → Bool :=
  stepIter g k (inputPass g initState)

/-- A 2-input AND gate (node 2) wired to two Input nodes A (node 0) and
B (node 1) whose Conditions report a and b this tick. -/
def andGraph (a b : Bool) : Graph :=
  { nodes :=
      [ ⟨0, NodeKind.input, GateType.gAnd, a, [], ["out"]⟩
      , ⟨1, NodeKind.input, GateType.gAnd, b, [], ["out"]⟩
      , ⟨2, NodeKind.process, GateType.gAnd, false, ["a", "b"], ["out"]⟩ ]
  , links :=
      [ ⟨0, "out", 2, "a"⟩
      , ⟨1, "out", 2, "b"⟩ ] }

/-- A Process node whose output feeds back into its own input (self-loop). -/
def loopGraph : Graph :=
  { nodes := [ ⟨0, NodeKind.process, GateType.gNot, false, ["in"], ["out"]⟩ ]
  , links := [ ⟨0, "out", 0, "in"⟩ ] }

/-- Typed errors returned by graph mutation operations. -/
inductive MutateError
  | DuplicateId
  | PortOccupied
  | UnknownNode
  | UnknownPort
deriving DecidableEq, Repr

/-- The input port (nid, p) already has an incoming link. -/
def portOccupied (g : Graph) (nid : Nat) (p : String) : Bool :=
  g.links.any (fun l => l.toNode == nid && l.toPort == p)

/-- Every input port holds at most one incoming link. -/
def linkTargetsNodup (g : Graph) : Prop :=
  (g.links.map (fun l => (l.toNode, l.toPort))).Nodup

/-- Modelled from the spec: add_link rejects a link to an already-occupied
input port with PortOccupied and leaves the graph unchanged; unknown endpoint
nodes or ports are rejected with UnknownNode/UnknownPort. -/
def addLink (g : Graph) (l : Link) : Graph × Option MutateError :=
  if portOccupied g l.toNode l.toPort then
    (g, some MutateError.PortOccupied)
  else
    match g.findNode l.fromNode, g.findNode l.toNode with
    | some nf, some nt =>
      if nf.outPorts.contains l.fromPort && nt.inPorts.contains l.toPort then
        ({ g with links := g.links ++ [l] }, none)
      else
        (g, some MutateError.UnknownPort)
    | _, _ => (g, some MutateError.UnknownNode)

/-- Modelled from the spec: the engine state machine Idle → Running → Idle. -/
inductive EngineState
  | Idle
  | Running
deriving DecidableEq, Repr

/-- ConcurrencyViolation-style report for an illegal state transition. -/
inductive EngineError
  | AlreadyRunning
deriving DecidableEq, Repr

/-- Modelled from the spec: start() spawns the tick loop from Idle; if
already Running it reports AlreadyRunning and changes no state. -/
def start : EngineState → EngineState × Option EngineError
  | .Idle => (.Running, none)
  | .Running => (.Running, some EngineError.AlreadyRunning)

/-- Modelled from the spec: stop() joins the loop and transitions to Idle
from Running; it is a no-op if already Idle. -/
def stop : EngineState → EngineState × Option EngineError
  | .Running => (.Idle, none)
  | .Idle => (.Idle, none)

/-- Error taxonomy of the State Store. -/
inductive StoreError
  | InvalidKey
deriving DecidableEq, Repr

/-- Modelled from the spec: the shared key→value map, last write wins. -/
abbrev StateStore (α : Type) := List (String × α)

/-- Modelled from the spec: get(key) returns the key's value option; the only
failure is the invalid (empty) key format. -/
def get {α : Type} (st : StateStore α) (k : String) : Except StoreError (Option α) :=
  if k = "" then Except.error StoreError.InvalidKey else Except.ok (st.lookup k)

/-- Modelled from the spec: set(key, value) stores the value; the only
failure is the invalid (empty) key format. -/
def set {α : Type} (st : StateStore α) (k : String) (v : α) : Except StoreError (StateStore α) :=
  if k = "" then Except.error StoreError.InvalidKey else Except.ok ((k, v) :: st)

/-- Modelled from the spec: the compare-and-set style toggle helper; the only
failure is the invalid (empty) key format. -/
def toggle (st : StateStore Bool) (k : String) : Except StoreError (StateStore Bool) :=
  if k = "" then Except.error StoreError.InvalidKey
  else Except.ok ((k, !((st.lookup k).getD false)) :: st)

/-- QDBusMessage message types. -/
inductive DBusReplyType
  | invalidMessage
  | methodCallMessage
  | replyMessage
  | errorMessage
  | signalMessage
deriving DecidableEq, Repr

/-- A QVariant argument of a DBus reply: either convertible to a variant map
or some other payload (identified by its type name). -/
inductive QVar
  | vmap (m : List (String × String))
  | other (typeName : String)
deriving DecidableEq, Repr

/-- The parts of a QDBusMessage read by WaylandScreenGrabber. -/
structure DBusMessage where
  msgType : DBusReplyType
  arguments : List QVar
  errorName : String
deriving DecidableEq, Repr

/-- Signals WaylandScreenGrabber can emit. -/
inductive GrabberEvent
  | sessionCreated (path : String)
  | errorOccurred (msg : String)
deriving DecidableEq, Repr

/-- WaylandScreenGrabber::handleDBusResponse: with an empty argument list the
function returns; if the first argument converts to a variant map containing
"session_handle", sessionCreated is emitted with that value; otherwise the
function logs and returns without emitting. -/
def handleDBusResponse (message : DBusMessage) : List GrabberEvent :=
  match message.arguments with
  | [] => []
  | firstArg :: _ =>
    match firstArg with
    | QVar.vmap responseMap =>
      match responseMap.lookup "session_handle" with
      | some v => [GrabberEvent.sessionCreated v]
      | none => []
    | QVar.other _ => []

/-- WaylandScreenGrabber::initCapture, given the blocking DBus call's reply:
a ReplyMessage is handed to handleDBusResponse; any other reply emits
errorOccurred. The second component records a requested process exit, which
initCapture never performs. -/
def initCapture (reply : DBusMessage) : List GrabberEvent × Option Int :=
  if reply.msgType = DBusReplyType.replyMessage then
    (handleDBusResponse reply, none)
  else
    ([GrabberEvent.errorOccurred ("DBus call failed: " ++ reply.errorName)], none)

/-- Provider failure signals (ProviderUnavailable or a backend error). -/
inductive ProviderError
  | unavailable
  | failed (msg : String)
deriving DecidableEq, Repr

/-- Result of evaluating one node against a capability provider. -/
structure TickOutcome where
  output : Bool
  engineRunning : Bool
deriving DecidableEq, Repr

/-- Modelled from the spec: a provider Unavailable/error result during node
evaluation is logged, the node's output degrades to false and the loop
continues (the engine source, engine.py, is not among the repository
sources). -/
def evalConditionSafe (res : Except ProviderError Bool) : TickOutcome :=
  match res with
  | Except.ok b => ⟨b, true⟩
  | Except.error _ => ⟨false, true⟩

/-- The URL of the root QML object loaded by main. -/
def mainQmlUrl : String := "qrc:/PixelPilot/src/ui/Main.qml"

/-- The objectCreated handler installed in main.cpp: requests exit(-1) when
the created object is null and the URL is the main window URL. -/
def objectCreatedHandler (url : String) (obj : Option Unit) (objUrl : String) : Option Int :=
  if obj.isNone && (url == objUrl) then some (-1) else none

theorem findNode_mem_id {g : Graph} {nid : Nat} {n : Node}
    (h : g.findNode nid = some n) : n ∈ g.nodes ∧ n.id = nid := by
  have h' : g.nodes.find? (fun m => m.id == nid) = some n := h
  have hp := List.find?_some h'
  simp only [beq_iff_eq] at hp
  exact ⟨List.mem_of_find?_eq_some h', hp⟩

theorem step_not_node {g : Graph} {nid : Nat} (h : g.findNode nid = none)
    (sig : Nat → Bool) : step g sig nid = sig nid := by
  simp [step, h]

theorem step_nonprocess {g : Graph} {nid : Nat} {n : Node}
    (h : g.findNode nid = some n) (hk : n.kind ≠ NodeKind.process)
    (sig : Nat → Bool) : step g sig nid = sig nid := by
  simp only [step, h]

theorem step_process {g : Graph} {nid : Nat} {n : Node}
    (h : g.findNode nid = some n) (hk : n.kind = NodeKind.process)
    (sig : Nat → Bool) : step g sig nid = evalProcess g sig n := by
  simp [step, h, hk]

theorem stepIter_succ (g : Graph) (k : Nat) (sig : Nat → Bool) :
    stepIter g (k + 1) sig = step g (stepIter g k sig) := by
  induction k generalizing sig with
  | zero => rfl
  | succ k ih =>
    show stepIter g (k + 1) (step g sig) = _
    rw [ih]
    rfl

theorem stepIter_add (g : Graph) (a b : Nat) (sig : Nat → Bool) :
    stepIter g (a + b) sig = stepIter g b (stepIter g a sig) := by
  induction a generalizing sig with
  | zero => rw [Nat.zero_add]; rfl
  | succ a ih =>
    rw [show a + 1 + b = (a + b) + 1 from by omega]
    show stepIter g (a + b) (step g sig) = _
    rw [ih]
    rfl

theorem stepIter_fixed {g : Graph} {sig : Nat → Bool} (h : step g sig = sig) :
    ∀ k, stepIter g k sig = sig := by
  intro k
  induction k with
  | zero => rfl
  | succ k ih =>
    show stepIter g k (step g sig) = sig
    rw [h]
    exact ih

theorem stepIter_preserved {g : Graph} {nid : Nat}
    (h : ∀ sig : Nat → Bool, step g sig nid = sig nid) :
    ∀ (j : Nat) (sig : Nat → Bool), stepIter g j sig nid = sig nid := by
  intro j
  induction j with
  | zero => intro sig; rfl
  | succ j ih =>
    intro sig
    show stepIter g j (step g sig) nid = sig nid
    rw [ih, h]

theorem outputsEq_self (g : Graph) (sig : Nat → Bool) : outputsEq g sig sig = true := by
  simp [outputsEq]

theorem outputsEq_spec {g : Graph} {sig sig' : Nat → Bool} (h : outputsEq g sig sig' = true) :
    ∀ n ∈ g.nodes, sig n.id = sig' n.id := by
  intro n hn
  exact eq_of_beq (List.all_eq_true.1 h n hn)

theorem step_eq_of_outputsEq {g : Graph} {sig : Nat → Bool}
    (h : outputsEq g sig (step g sig) = true) : step g sig = sig := by
  funext nid
  cases hfn : g.findNode nid with
  | none => exact step_not_node hfn sig
  | some n =>
    obtain ⟨hmem, hid⟩ := findNode_mem_id hfn
    have := outputsEq_spec h n hmem
    rw [hid] at this
    exact this.symm

theorem relax_fixed {g : Graph} {sig : Nat → Bool} (h : step g sig = sig) :
    ∀ numPasses, relax g numPasses sig = sig := by
  intro numPasses
  cases numPasses with
  | zero => rfl
  | succ k => simp [relax, h, outputsEq_self]

theorem relax_result (g : Graph) :
    ∀ (numPasses : Nat) (sig : Nat → Bool),
      ∃ k, k ≤ numPasses ∧ relax g numPasses sig = stepIter g k sig ∧
        (k = numPasses ∨ step g (stepIter g k sig) = stepIter g k sig) := by
  intro numPasses
  induction numPasses with
  | zero => exact fun sig => ⟨0, Nat.le_refl 0, rfl, Or.inl rfl⟩
  | succ m ih =>
    intro sig
    by_cases hEq : outputsEq g sig (step g sig) = true
    · refine ⟨0, Nat.zero_le _, ?_, Or.inr (step_eq_of_outputsEq hEq)⟩
      show (if outputsEq g sig (step g sig) then sig else relax g m (step g sig)) = sig
      rw [if_pos hEq]
    · obtain ⟨k, hk, heq, hor⟩ := ih (step g sig)
      refine ⟨k + 1, Nat.succ_le_succ hk, ?_, ?_⟩
      · show (if outputsEq g sig (step g sig) then sig else relax g m (step g sig)) = _
        rw [if_neg hEq, heq]
        rfl
      · rcases hor with hkm | hfix
        · exact Or.inl (by omega)
        · exact Or.inr hfix

theorem portVal_congr {g : Graph} {sig sig' : Nat → Bool} {nid : Nat}
    (h : ∀ l ∈ g.links, l.toNode = nid → sig l.fromNode = sig' l.fromNode)
    (p : String) : portVal g sig nid p = portVal g sig' nid p := by
  unfold portVal
  cases hf : g.links.find? (fun l => l.toNode == nid && l.toPort == p) with
  | none => rfl
  | some l =>
    have hmem := List.mem_of_find?_eq_some hf
    have hp := List.find?_some hf
    have hto : l.toNode = nid := eq_of_beq (Bool.and_elim_left hp)
    exact h l hmem hto

theorem evalProcess_congr {g : Graph} {sig sig' : Nat → Bool} {n : Node}
    (h : ∀ l ∈ g.links, l.toNode = n.id → sig l.fromNode = sig' l.fromNode) :
    evalProcess g sig n = evalProcess g sig' n := by
  have hmap : n.inPorts.map (portVal g sig n.id) = n.inPorts.map (portVal g sig' n.id) := by
    apply List.map_congr_left
    intro p _
    exact portVal_congr h p
  unfold evalProcess
  rw [hmap]

theorem evalProcess_no_incoming {g : Graph} {n : Node}
    (h : hasIncoming g n.id = false) (sig : Nat → Bool) :
    evalProcess g sig n = false := by
  simp [evalProcess, h]

theorem tickIter_stable (g : Graph) (d : Nat → Nat)
    (hd : ∀ l ∈ g.links, d l.fromNode < d l.toNode) :
    ∀ k nid, d nid ≤ k → ∀ j, tickIter g (k + j) nid = tickIter g k nid := by
  intro k
  induction k with
  | zero =>
    intro nid hnid j
    cases hfn : g.findNode nid with
    | none =>
      have hkeep : ∀ sig, step g sig nid = sig nid := fun sig => step_not_node hfn sig
      simp only [tickIter]
      rw [stepIter_preserved hkeep, stepIter_preserved hkeep]
    | some n =>
      obtain ⟨hmem, hid⟩ := findNode_mem_id hfn
      by_cases hproc : n.kind = NodeKind.process
      · have hno : hasIncoming g n.id = false := by
          rw [hasIncoming]
          rw [List.any_eq_false]
          intro l hl hb
          have hto : l.toNode = n.id := eq_of_beq hb
          have hlt := hd l hl
          rw [hto, hid] at hlt
          omega
        have hstep : ∀ sig, step g sig nid = false := by
          intro sig
          rw [step_process hfn hproc]
          exact evalProcess_no_incoming hno sig
        have h0 : tickIter g 0 nid = false := by
          show inputPass g initState nid = false
          simp [inputPass, hfn, hproc, initState]
        cases j with
        | zero => rfl
        | succ j =>
          rw [h0, Nat.zero_add]
          simp only [tickIter]
          rw [stepIter_succ]
          exact hstep _
      · have hkeep : ∀ sig, step g sig nid = sig nid :=
          fun sig => step_nonprocess hfn hproc sig
        simp only [tickIter]
        rw [stepIter_preserved hkeep, stepIter_preserved hkeep]
  | succ k ih =>
    intro nid hnid j
    by_cases hdk : d nid ≤ k
    · have h1 := ih nid hdk (1 + j)
      have h2 := ih nid hdk 1
      rw [show k + 1 + j = k + (1 + j) from by omega, h1, h2]
    · cases hfn : g.findNode nid with
      | none =>
        have hkeep : ∀ sig, step g sig nid = sig nid := fun sig => step_not_node hfn sig
        simp only [tickIter]
        rw [stepIter_preserved hkeep, stepIter_preserved hkeep]
      | some n =>
        obtain ⟨hmem, hid⟩ := findNode_mem_id hfn
        by_cases hproc : n.kind = NodeKind.process
        · cases j with
          | zero => rfl
          | succ j =>
            have e1 : tickIter g (k + 1 + (j + 1)) nid =
                evalProcess g (tickIter g (k + 1 + j)) n := by
              rw [show k + 1 + (j + 1) = (k + 1 + j) + 1 from by omega]
              simp only [tickIter]
              rw [stepIter_succ, step_process hfn hproc]
            have e2 : tickIter g (k + 1) nid = evalProcess g (tickIter g k) n := by
              simp only [tickIter]
              rw [stepIter_succ, step_process hfn hproc]
            rw [e1, e2]
            apply evalProcess_congr
            intro l hl hto
            have hlt := hd l hl
            rw [hto, hid] at hlt
            have hdf : d l.fromNode ≤ k := by omega
            have s1 := ih l.fromNode hdf (1 + j)
            rw [show k + 1 + j = k + (1 + j) from by omega, s1]
        · have hkeep : ∀ sig, step g sig nid = sig nid :=
            fun sig => step_nonprocess hfn hproc sig
          simp only [tickIter]
          rw [stepIter_preserved hkeep, stepIter_preserved hkeep]

theorem step_fix_at_depth (g : Graph) (d : Nat → Nat) (bound : Nat)
    (hd : ∀ l ∈ g.links, d l.fromNode < d l.toNode)
    (hb : ∀ n ∈ g.nodes, d n.id ≤ bound) :
    step g (tickIter g bound) = tickIter g bound := by
  funext nid
  cases hfn : g.findNode nid with
  | none => exact step_not_node hfn _
  | some n =>
    obtain ⟨hmem, hid⟩ := findNode_mem_id hfn
    have hdb : d nid ≤ bound := hid ▸ hb n hmem
    have hstable := tickIter_stable g d hd bound nid hdb 1
    calc step g (tickIter g bound) nid
        = tickIter g (bound + 1) nid := by
          simp only [tickIter]
          rw [stepIter_succ]
      _ = tickIter g bound nid := hstable

theorem evaluate_eq_tickIter (g : Graph) (d : Nat → Nat) (bound numPasses : Nat)
    (hd : ∀ l ∈ g.links, d l.fromNode < d l.toNode)
    (hb : ∀ n ∈ g.nodes, d n.id ≤ bound)
    (hN : bound ≤ numPasses) :
    evaluate g numPasses = tickIter g bound := by
  have hfix : step g (stepIter g bound (inputPass g initState)) =
      stepIter g bound (inputPass g initState) :=
    step_fix_at_depth g d bound hd hb
  obtain ⟨k, hk, heq, hor⟩ := relax_result g numPasses (inputPass g initState)
  have hev : evaluate g numPasses = stepIter g k (inputPass g initState) := heq
  rw [hev]
  show stepIter g k (inputPass g initState) = stepIter g bound (inputPass g initState)
  rcases hor with hkN | hfixk
  · have hs : stepIter g (bound + (k - bound)) (inputPass g initState) =
        stepIter g bound (inputPass g initState) := by
      rw [stepIter_add]
      exact stepIter_fixed hfix _
    rw [show bound + (k - bound) = k from by omega] at hs
    exact hs
  · rcases Nat.le_total k bound with hkb | hbk
    · have hs : stepIter g (k + (bound - k)) (inputPass g initState) =
          stepIter g k (inputPass g initState) := by
        rw [stepIter_add]
        exact stepIter_fixed hfixk _
      rw [show k + (bound - k) = bound from by omega] at hs
      exact hs.symm
    · have hs : stepIter g (bound + (k - bound)) (inputPass g initState) =
          stepIter g bound (inputPass g initState) := by
        rw [stepIter_add]
        exact stepIter_fixed hfix _
      rw [show bound + (k - bound) = k from by omega] at hs
      exact hs

theorem inputPass_tickIter_fix (g : Graph) (k : Nat) :
    inputPass g (tickIter g k) = tickIter g k := by
  funext nid
  cases hfn : g.findNode nid with
  | none => simp [inputPass, hfn]
  | some n =>
    by_cases hin : n.kind = NodeKind.input
    · have hne : n.kind ≠ NodeKind.process := by rw [hin]; intro hc; cases hc
      have hkeep : ∀ sig, step g sig nid = sig nid :=
        fun sig => step_nonprocess hfn hne sig
      have hval : tickIter g k nid = n.sense := by
        simp only [tickIter]
        rw [stepIter_preserved hkeep]
        simp [inputPass, hfn, hin]
      simp [inputPass, hfn, hin, hval]
    · simp [inputPass, hfn, hin]

/-- Claim C1: for every acyclic graph (acyclicity witnessed by a depth
measure d, bounded by the longest dependency-path length pathBound), the
relaxation passes of a tick reach a fixed point within pathBound passes,
evaluation with at least that many passes stops at that fixed point, and
re-evaluating with unchanged inputs yields identical outputs (idempotence). -/
theorem graph_acyclic_fixed_point_idempotent
    (g : Graph) (d : Nat → Nat) (pathBound numPasses : Nat)
    (hd : ∀ l ∈ g.links, d l.fromNode < d l.toNode)
    (hb : ∀ n ∈ g.nodes, d n.id ≤ pathBound)
    (hN : pathBound ≤ numPasses) :
    outputsEq g (tickIter g pathBound) (tickIter g (pathBound + 1)) = true
    ∧ evaluate g numPasses = tickIter g pathBound
    ∧ tick g numPasses (evaluate g numPasses) = evaluate g numPasses := by
  have heval := evaluate_eq_tickIter g d pathBound numPasses hd hb hN
  have hfix : step g (tickIter g pathBound) = tickIter g pathBound :=
    step_fix_at_depth g d pathBound hd hb
  refine ⟨?_, heval, ?_⟩
  · simp only [outputsEq]
    rw [List.all_eq_true]
    intro n hn
    have hstable := tickIter_stable g d hd pathBound n.id (hb n hn) 1
    simp [hstable]
  · rw [heval]
    show relax g numPasses (inputPass g (tickIter g pathBound)) = tickIter g pathBound
    rw [inputPass_tickIter_fix]
    exact relax_fixed hfix numPasses

/-- Witness for C1 at the 2-input AND graph with depth measure 0 for the
Input nodes and 1 for the gate. -/
theorem graph_acyclic_fixed_point_idempotent_witness :
    (∀ l ∈ (andGraph true true).links,
        (fun nid => if 2 ≤ nid then 1 else 0) l.fromNode <
          (fun nid => if 2 ≤ nid then 1 else 0) l.toNode)
    ∧ (∀ n ∈ (andGraph true true).nodes,
        (fun nid => if 2 ≤ nid then 1 else 0) n.id ≤ 1)
    ∧ (outputsEq (andGraph true true) (tickIter (andGraph true true) 1)
          (tickIter (andGraph true true) (1 + 1)) = true
        ∧ evaluate (andGraph true true) 3 = tickIter (andGraph true true) 1
        ∧ tick (andGraph true true) 3 (evaluate (andGraph true true) 3) =
            evaluate (andGraph true true) 3) :=
  ⟨by decide, by decide,
    graph_acyclic_fixed_point_idempotent (andGraph true true)
      (fun nid => if 2 ≤ nid then 1 else 0) 1 3 (by decide) (by decide) (by decide)⟩

/-- Claim C2: a 2-input AND gate wired to Input nodes A and B outputs true
after one tick iff both A and B report true in that tick; all four boolean
combinations. -/
theorem and_gate_truth_table :
    ∀ a b : Bool, evaluate (andGraph a b) 3 2 = (a && b)
      ∧ (evaluate (andGraph a b) 3 2 = true ↔ (a = true ∧ b = true)) := by
  decide

/-- Claim C3: add_link onto an already-occupied input port returns
PortOccupied with the graph unchanged, and add_link never gives an input
port a second incoming link. -/
theorem addLink_occupied_rejected (g : Graph) (l : Link) :
    (portOccupied g l.toNode l.toPort = true →
      addLink g l = (g, some MutateError.PortOccupied))
    ∧ (linkTargetsNodup g → linkTargetsNodup (addLink g l).1) := by
  constructor
  · intro hocc
    simp [addLink, hocc]
  · intro hnd
    unfold addLink
    split
    · exact hnd
    · rename_i hocc2
      have hocc' : portOccupied g l.toNode l.toPort = false := by
        revert hocc2
        cases portOccupied g l.toNode l.toPort <;> simp
      split
      · split
        · show ((g.links ++ [l]).map (fun x => (x.toNode, x.toPort))).Nodup
          rw [List.map_append, List.nodup_append]
          refine ⟨hnd, List.nodup_singleton _, ?_⟩
          intro a ha hb
          simp only [List.map_cons, List.map_nil, List.mem_singleton] at hb
          obtain ⟨l', hl', hfa⟩ := List.mem_map.1 ha
          have hnone := List.any_eq_false.1 hocc' l' hl'
          apply hnone
          rw [hb] at hfa
          have h1 : l'.toNode = l.toNode := congrArg Prod.fst hfa
          have h2 : l'.toPort = l.toPort := congrArg Prod.snd hfa
          simp [h1, h2]
        · exact hnd
      · exact hnd

/-- Witness for C3: the self-loop graph's input port is occupied, so adding
a second link there is rejected and uniqueness of incoming links persists. -/
theorem addLink_occupied_rejected_witness :
    addLink loopGraph ⟨0, "out", 0, "in"⟩ = (loopGraph, some MutateError.PortOccupied)
    ∧ linkTargetsNodup (addLink loopGraph ⟨0, "out", 0, "in"⟩).1 :=
  ⟨(addLink_occupied_rejected loopGraph ⟨0, "out", 0, "in"⟩).1 (by decide),
   (addLink_occupied_rejected loopGraph ⟨0, "out", 0, "in"⟩).2
     (by unfold linkTargetsNodup; decide)⟩

/-- Claim C5: the engine state machine admits only Idle → Running via start
and Running → Idle via stop; start while Running reports AlreadyRunning with
no state change, stop while Idle is a state-preserving no-op. -/
theorem engine_state_machine :
    start EngineState.Idle = (EngineState.Running, none)
    ∧ start EngineState.Running = (EngineState.Running, some EngineError.AlreadyRunning)
    ∧ stop EngineState.Running = (EngineState.Idle, none)
    ∧ stop EngineState.Idle = (EngineState.Idle, none) := by
  decide

/-- Claim C6: a graph with a self-looped Process node still evaluates one
tick within the bounded relaxation budget: the tick's result is a k-fold
pass iterate for some k at most max_relaxation_passes, so self-loops never
cause unbounded recursion. -/
theorem selfloop_bounded_relaxation (g : Graph) (numPasses : Nat) (sig : Nat → Bool)
    (_hloop : ∃ l ∈ g.links, l.fromNode = l.toNode) :
    ∃ k ≤ numPasses, tick g numPasses sig = stepIter g k (inputPass g sig) := by
  obtain ⟨k, hk, heq, _⟩ := relax_result g numPasses (inputPass g sig)
  exact ⟨k, hk, heq⟩

/-- Witness for C6 at the concrete self-looped NOT node. -/
theorem selfloop_bounded_relaxation_witness :
    (∃ l ∈ loopGraph.links, l.fromNode = l.toNode)
    ∧ ∃ k ≤ 3, tick loopGraph 3 initState =
        stepIter loopGraph k (inputPass loopGraph initState) :=
  ⟨by decide, selfloop_bounded_relaxation loopGraph 3 initState (by decide)⟩

/-- Claim C7: every State Store operation (get, set, toggle) fails exactly
on the invalid key format, the empty string, returning InvalidKey, and never
fails on a non-empty key. -/
theorem store_fail_iff_empty_key {α : Type} (st : StateStore α) (k : String) (v : α)
    (stb : StateStore Bool) :
    get st "" = Except.error StoreError.InvalidKey
    ∧ set st "" v = Except.error StoreError.InvalidKey
    ∧ toggle stb "" = Except.error StoreError.InvalidKey
    ∧ ((∃ e, get st k = Except.error e) ↔ k = "")
    ∧ ((∃ e, set st k v = Except.error e) ↔ k = "")
    ∧ ((∃ e, toggle stb k = Except.error e) ↔ k = "") := by
  refine ⟨by simp [get], by simp [set], by simp [toggle], ?_, ?_, ?_⟩
  all_goals constructor
  · rintro ⟨e, he⟩
    by_contra hk
    simp [get, hk] at he
  · rintro rfl
    exact ⟨StoreError.InvalidKey, by simp [get]⟩
  · rintro ⟨e, he⟩
    by_contra hk
    simp [set, hk] at he
  · rintro rfl
    exact ⟨StoreError.InvalidKey, by simp [set]⟩
  · rintro ⟨e, he⟩
    by_contra hk
    simp [toggle, hk] at he
  · rintro rfl
    exact ⟨StoreError.InvalidKey, by simp [toggle]⟩

/-- Claim C8: a capability-provider failure or unavailability degrades the
node's output to false while the evaluation loop keeps running, and the
screen grabber surfaces a failed DBus call as a recoverable errorOccurred
signal without ever requesting process exit. -/
theorem provider_failure_tolerated :
    (∀ res : Except ProviderError Bool, (evalConditionSafe res).engineRunning = true)
    ∧ (∀ e : ProviderError, (evalConditionSafe (Except.error e)).output = false)
    ∧ (∀ reply : DBusMessage, (initCapture reply).2 = none)
    ∧ (∀ reply : DBusMessage, reply.msgType ≠ DBusReplyType.replyMessage →
        initCapture reply =
          ([GrabberEvent.errorOccurred ("DBus call failed: " ++ reply.errorName)], none)) := by
  refine ⟨?_, ?_, ?_, ?_⟩
  · intro res
    cases res <;> rfl
  · intro e
    rfl
  · intro reply
    unfold initCapture
    split <;> rfl
  · intro reply hne
    unfold initCapture
    rw [if_neg hne]

/-- Witness for C8: a concrete failed DBus call is surfaced as an
errorOccurred signal with no exit requested. -/
theorem provider_failure_tolerated_witness :
    (DBusMessage.mk DBusReplyType.errorMessage [] "org.freedesktop.DBus.Error.NoReply").msgType
        ≠ DBusReplyType.replyMessage
    ∧ initCapture
        (DBusMessage.mk DBusReplyType.errorMessage [] "org.freedesktop.DBus.Error.NoReply") =
        ([GrabberEvent.errorOccurred
            ("DBus call failed: " ++ "org.freedesktop.DBus.Error.NoReply")], none) :=
  ⟨by decide, provider_failure_tolerated.2.2.2 _ (by decide)⟩

/-- Claim C9: handleDBusResponse emits sessionCreated (carrying the map's
value) exactly when the reply's argument list is non-empty, its first
argument converts to a variant map, and that map contains "session_handle";
it never emits errorOccurred, returning normally in all other cases. -/
theorem handleDBusResponse_characterization (message : DBusMessage) :
    (∀ v, GrabberEvent.sessionCreated v ∈ handleDBusResponse message ↔
        ∃ m rest, message.arguments = QVar.vmap m :: rest
          ∧ m.lookup "session_handle" = some v)
    ∧ (∀ ev ∈ handleDBusResponse message,
        ∃ v, ev = GrabberEvent.sessionCreated v) := by
  obtain ⟨mt, margs, merr⟩ := message
  constructor
  · intro v
    cases margs with
    | nil => simp [handleDBusResponse]
    | cons a rest =>
      cases a with
      | vmap m =>
        cases hl : m.lookup "session_handle" with
        | none => simp [handleDBusResponse, hl]
        | some w => simp [handleDBusResponse, hl, eq_comm]
      | other t => simp [handleDBusResponse]
  · intro ev hev
    cases margs with
    | nil => simp [handleDBusResponse] at hev
    | cons a rest =>
      cases a with
      | vmap m =>
        cases hl : m.lookup "session_handle" with
        | none => simp [handleDBusResponse, hl] at hev
        | some w =>
          simp [handleDBusResponse, hl] at hev
          exact ⟨w, hev⟩
      | other t => simp [handleDBusResponse] at hev

/-- Witness for C9: a reply whose first argument is a variant map holding a
session handle emits exactly that sessionCreated signal. -/
theorem handleDBusResponse_characterization_witness :
    GrabberEvent.sessionCreated "/org/fdo/s1" ∈ handleDBusResponse
        (DBusMessage.mk DBusReplyType.replyMessage
          [QVar.vmap [("session_handle", "/org/fdo/s1")]] "")
    ∧ ∃ v, GrabberEvent.sessionCreated "/org/fdo/s1" = GrabberEvent.sessionCreated v :=
  ⟨by decide,
   (handleDBusResponse_characterization
      (DBusMessage.mk DBusReplyType.replyMessage
        [QVar.vmap [("session_handle", "/org/fdo/s1")]] "")).2 _ (by decide)⟩

/-- Claim C10: the objectCreated handler in main exits with code -1 exactly
when the created root object is null and the URL is the main window URL; a
successfully created root object never triggers an exit. -/
theorem main_exits_on_null_root :
    (objectCreatedHandler mainQmlUrl none mainQmlUrl = some (-1))
    ∧ (∀ (o : Unit) (objUrl : String),
        objectCreatedHandler mainQmlUrl (some o) objUrl = none)
    ∧ (∀ (obj : Option Unit) (objUrl : String),
        objectCreatedHandler mainQmlUrl obj objUrl = some (-1) ↔
          obj = none ∧ objUrl = mainQmlUrl) := by
  refine ⟨by decide, ?_, ?_⟩
  · intro o objUrl
    rfl
  · intro obj objUrl
    cases obj with
    | none =>
      by_cases h : mainQmlUrl = objUrl
      · simp [objectCreatedHandler, h]
      · have h2 : objUrl ≠ mainQmlUrl := fun hc => h hc.symm
        simp [objectCreatedHandler, h, h2]
    | some o => simp [objectCreatedHandler]

end PixelPilot
